import Mathlib

/-!
Shallow embedding of the Belote game engine (`belote.py`): card model,
rank/value tables, deck operations, dealing, bidding, legal-move rules,
trick resolution and scoring, with theorems checking the specification's
claims against it.
-/

set_option linter.unusedVariables false

namespace Belote

/-- The eight ranks of the 32-card deck (class `Rank`). -/
inductive Rank : Type
  | ace | king | queen | jack | ten | nine | eight | seven
  deriving DecidableEq, Repr, Fintype

/-- The four suits (class `Suit`). -/
inductive Suit : Type
  | diamond | hearts | spades | clubs
  deriving DecidableEq, Repr, Fintype

open Rank Suit

/-- Source `TRUMP_ORDER`: ordinal rank of a card of the trump suit. -/
def TRUMP_ORDER : Rank → Nat
  | seven => 0
  | eight => 1
  | queen => 2
  | king  => 3
  | ten   => 4
  | ace   => 5
  | nine  => 6
  | jack  => 7

/-- Source `NORMAL_ORDER`: ordinal rank of a card of a non-trump suit. -/
def NORMAL_ORDER : Rank → Nat
  | seven => 0
  | eight => 1
  | nine  => 2
  | jack  => 3
  | queen => 4
  | king  => 5
  | ten   => 6
  | ace   => 7

/-- Source `TRUMP_VALUE`: point value of a card of the trump suit. -/
def TRUMP_VALUE : Rank → Nat
  | seven => 0
  | eight => 0
  | queen => 3
  | king  => 4
  | ten   => 10
  | ace   => 11
  | nine  => 14
  | jack  => 20

/-- Source `NORMAL_VALUE`: point value of a card of a non-trump suit. -/
def NORMAL_VALUE : Rank → Nat
  | seven => 0
  | eight => 0
  | nine  => 0
  | jack  => 2
  | queen => 3
  | king  => 4
  | ten   => 10
  | ace   => 11

/-- A card (frozen dataclass `Card`): a rank together with a suit. -/
structure Card : Type where
  rank : Rank
  suit : Suit
  deriving DecidableEq, Repr

/-- Source `Card.get_value`: point value of the card given the deal's trump suit. -/
def Card.get_value (c : Card) (trump : Suit) : Nat :=
  if c.suit = trump then TRUMP_VALUE c.rank else NORMAL_VALUE c.rank

/-- Source `Card.get_rank`: ordinal rank of the card given the deal's trump suit. -/
def Card.get_rank (c : Card) (trump : Suit) : Nat :=
  if c.suit = trump then TRUMP_ORDER c.rank else NORMAL_ORDER c.rank

/-- The string value of a `Rank` enum member (`Rank(s)` succeeds exactly on
these strings). -/
def rank_from_string : String → Option Rank
  | "A"  => some ace
  | "K"  => some king
  | "Q"  => some queen
  | "J"  => some jack
  | "10" => some ten
  | "9"  => some nine
  | "8"  => some eight
  | "7"  => some seven
  | _    => none

/-- The string value of a `Suit` enum member. -/
def suit_from_string : String → Option Suit
  | "♦" => some diamond
  | "♥" => some hearts
  | "♠" => some spades
  | "♣" => some clubs
  | _   => none

/-- The symbol of a suit (`suit.value` in the source). -/
def suit_value : Suit → String
  | diamond => "♦"
  | hearts  => "♥"
  | spades  => "♠"
  | clubs   => "♣"

/-- Source `Card.from_string`: parse `{rank}{suit}`; the source raises `ValueError`
(here `none`) when the string is shorter than 2 characters or when
`Rank(s[:-1])` or `Suit(s[-1])` is not a valid enum member. -/
def Card.from_string (s : String) : Option Card :=
  if s.length < 2 then none
  else
    match rank_from_string (s.dropRight 1), suit_from_string (s.takeRight 1) with
    | some r, some su => some ⟨r, su⟩
    | _, _ => none

/-- The lists underlying the `Rank` and `Suit` enums, in declaration order. -/
def rankList : List Rank := [ace, king, queen, jack, ten, nine, eight, seven]

/-- The four suits in declaration order. -/
def suitList : List Suit := [diamond, hearts, spades, clubs]

/-- The 32 cards of a fresh deck, `itertools.product(Rank, Suit)` order
(`Deck.__init__`). -/
def allCards : List Card :=
  (rankList.map (fun r => suitList.map (fun s => Card.mk r s))).flatten

/-! ## Players, teams and tricks -/

/-- Seats are numbered 0..3 (source players 1..4, in join order). -/
abbrev Seat := Fin 4

/-- Source `Belote.set_teams`: players 0 and 2 form team 0, players 1 and 3 team 1. -/
def team_of (p : Seat) : Fin 2 := ⟨p.val % 2, Nat.mod_lt _ (by omega)⟩

/-- A `Team` object: running score and contracting flag. -/
structure Team : Type where
  score : Nat := 0
  has_contract : Bool := false
  deriving DecidableEq, Repr

/-- A trick pile: the ordered `(player, card)` pairs played so far. -/
abbrev Pile := List (Seat × Card)

/-- A `Player`, reduced to the fields `legal_moves` reads: seat number and
current hand. -/
structure Player : Type where
  number : Seat
  hand : List Card
  deriving DecidableEq, Repr

/-- Strict lexicographic comparison of the `(category, rank)` keys, as Python
compares the tuples returned by `pile_key_function`. -/
def keyLt (a b : Nat × Nat) : Bool :=
  a.1 < b.1 || (a.1 = b.1 && a.2 < b.2)

/-- Source `Trick.pile_key_function`: key of a card in a trick whose led (dominant)
suit is `dom` — `(2, rank)` for trump, `(1, rank)` for the led suit,
`(0, rank)` otherwise, the rank always taken in trump context. -/
def pile_key (trump dom : Suit) (c : Card) : Nat × Nat :=
  if c.suit = trump then (2, c.get_rank trump)
  else if c.suit = dom then (1, c.get_rank trump)
  else (0, c.get_rank trump)

/-- Source `Trick.dominant_suit`: the suit of the first card of the pile, `none`
when the pile is empty. -/
def dominant_suit (pile : Pile) : Option Suit :=
  pile.head?.map (fun pc => pc.2.suit)

/-- Source `Trick.winning_player_card`: `max(pile, key=pile_key_function)`. Python's
`max` keeps the first of equally-keyed elements and raises on an empty pile
(here `none`). -/
def winning_player_card (trump : Suit) (pile : Pile) : Option (Seat × Card) :=
  match pile with
  | [] => none
  | x :: xs =>
    some (xs.foldl
      (fun best y =>
        if keyLt (pile_key trump x.2.suit best.2) (pile_key trump x.2.suit y.2)
        then y else best) x)

/-- Source `Trick.total_score`: sum of the point values of the cards in the pile. -/
def total_score (trump : Suit) (pile : Pile) : Nat :=
  (pile.map (fun pc => pc.2.get_value trump)).sum

/-- The source's `winning_player == self.team` (line 249 and 260 of
`belote.py`) compares a `Player` object with a `Team` object.  Python falls
back to identity equality across the two unrelated classes, so the test is
`False` for every winner and every team. -/
def winnerEqualsTeam (winner : Seat) (team : Team) : Bool := false

/-- Source `Player.legal_moves`: the cards of `self.hand` that may be played on the
given trick.  Mirrors the source branch for branch, including the dead
`winning_player == self.team` tests and the `higher_trumps` computed from
`same_suit` in the plain-suit branch. -/
def legal_moves (self : Player) (selfTeam : Team) (trump : Suit) (pile : Pile) :
    List Card :=
  match pile with
  | [] => self.hand
  | (w0, c0) :: rest =>
    let dom := c0.suit
    match winning_player_card trump ((w0, c0) :: rest) with
    | none => self.hand
    | some (winning_player, winning_card) =>
      let same_suit := self.hand.filter (fun c => c.suit = dom)
      if dom = trump then
        if same_suit = [] then self.hand
        else if winnerEqualsTeam winning_player selfTeam then same_suit
        else
          let higher_trumps := same_suit.filter
            (fun c => winning_card.get_rank trump < c.get_rank trump)
          if higher_trumps = [] then same_suit else higher_trumps
      else
        if same_suit ≠ [] then same_suit
        else
          let trumps := self.hand.filter (fun c => c.suit = trump)
          if trumps ≠ [] then
            if winnerEqualsTeam winning_player selfTeam then trumps
            else
              let higher_trumps := same_suit.filter
                (fun c => winning_card.get_rank trump < c.get_rank trump)
              if higher_trumps = [] then trumps else higher_trumps
          else self.hand

/-- Outcome of one `ask_to_play` round-trip; the error constructors carry the
hand and pile as they stand when the uncaught exception is raised. -/
inductive PlayOutcome : Type
  | played (hand : List Card) (pile : Pile)
  | protocolError (hand : List Card) (pile : Pile)
  | illegalMove (hand : List Card) (pile : Pile)
  deriving DecidableEq, Repr

/-- Source `Player.ask_to_play`: parse the answer (`Card.from_string`), check it
against `legal_moves` (`assert card in legal_moves`), then `plays` appends the
card to the pile and removes it from the hand.  A parse failure raises
`ValueError` and a failed assert raises `AssertionError`; the source has no
handler for either (`# TODO: Handle errors`), so the outcome records the
abort with the untouched state. -/
def ask_to_play (self : Player) (selfTeam : Team) (trump : Suit) (pile : Pile)
    (answer : String) : PlayOutcome :=
  let legal := legal_moves self selfTeam trump pile
  match Card.from_string answer with
  | none => .protocolError self.hand pile
  | some card =>
    if card ∈ legal then
      .played (self.hand.erase card) (pile ++ [(self.number, card)])
    else
      .illegalMove self.hand pile

/-! ## Deck operations -/

/-- Source `Deck.cut`: `assert 0 <= index < len`, split into `cards[:index]` and
`cards[index:]`, `assert` both chunks have at least 3 cards, then rotate so
the back chunk comes first.  A failed assert (here `none`) aborts. -/
def cut (cards : List Card) (index : Nat) : Option (List Card) :=
  if index < cards.length then
    let first_chunk := cards.take index
    let second_chunk := cards.drop index
    if 3 ≤ first_chunk.length ∧ 3 ≤ second_chunk.length then
      some (second_chunk ++ first_chunk)
    else none
  else none

/-- Source `Deck.pop_many`: `[self.cards.pop() for _ in range(nb_cards)]` — pops the
last card `nb_cards` times, so it returns the last `nb_cards` cards in
reverse order and keeps the front of the list.  Popping an exhausted deck
raises `IndexError` (here `none`). -/
def pop_many (cards : List Card) (nb_cards : Nat) :
    Option (List Card × List Card) :=
  if nb_cards ≤ cards.length then
    some ((cards.drop (cards.length - nb_cards)).reverse,
          cards.take (cards.length - nb_cards))
  else none

/-- Source `Deck.peek`: `self.cards[-1]`, the card the next `pop` removes; reads the
deck without modifying it (`none` on an empty deck). -/
def peek (cards : List Card) : Option Card := cards.getLast?

/-! ## Turn ring and dealing -/

/-- Source `Player.iter_from_next` on the 4-cycle installed by
`initialize_double_linked_list` (`players[i].next = players[(i+1) % 4]`):
yields `next`, `next.next`, ... and stops after yielding `self` itself. -/
def iter_from_next (p : Seat) : List Seat := [p + 1, p + 2, p + 3, p]

/-- Source `Player.iter_from_self`: `self.previous.iter_from_next()`, i.e. the same
traversal starting at `self`. -/
def iter_from_self (p : Seat) : List Seat := iter_from_next (p - 1)

/-- The mutable dealing state: each player's hand and the deck. -/
structure DealState : Type where
  hands : Seat → List Card
  deck : List Card

/-- Append `cards` to player `p`'s hand (`Player.add_to_hand`). -/
def add_to_hand (hands : Seat → List Card) (p : Seat) (cards : List Card) :
    Seat → List Card :=
  fun q => if q = p then hands q ++ cards else hands q

/-- One dealing pass: for each player of `order` in turn, pop `n player`
cards off the deck and add them to that player's hand. -/
def deal_out (order : List Seat) (n : Seat → Nat) (s : DealState) :
    Option DealState :=
  match order with
  | [] => some s
  | p :: rest =>
    match pop_many s.deck (n p) with
    | none => none
    | some (cs, deck') =>
      deal_out rest n ⟨add_to_hand s.hands p cs, deck'⟩

/-- Source `Player.deal_5_cards` called on the dealer: deal 2 cards to every player
in ring order starting after the dealer, then 3 cards in the same order. -/
def deal_5_cards (dealer : Seat) (s : DealState) : Option DealState :=
  match deal_out (iter_from_next dealer) (fun _ => 2) s with
  | none => none
  | some s' => deal_out (iter_from_next dealer) (fun _ => 3) s'

/-- Source `Player.deal_remaining` called on the dealer: the bidder first gets the
top card, then in ring order starting after the dealer the bidder gets 2
cards and everyone else 3. -/
def deal_remaining (dealer bidder : Seat) (s : DealState) : Option DealState :=
  match pop_many s.deck 1 with
  | none => none
  | some (cs, deck') =>
    deal_out (iter_from_next dealer) (fun p => if p = bidder then 2 else 3)
      ⟨add_to_hand s.hands bidder cs, deck'⟩

/-! ## Bidding -/

/-- The take phase of `Belote.start`: in ring order starting after the
dealer, ask each player whether they take the shown card; the first player
whose answer is the literal `"yes"` becomes the bidder and the trump is the
shown card's suit; every other token declines.  `none` when all four
decline. -/
def take_phase (dealer : Seat) (answers : Seat → String) (card : Card) :
    Option (Seat × Suit) :=
  (iter_from_next dealer).findSome?
    (fun p => if answers p = "yes" then some (p, card.suit) else none)

/-- The choice list of the suit phase: every suit other than the shown
card's suit (`[suit.value for suit in Suit if suit != Suit(card.suit)]`). -/
def suit_choices (card : Card) : List Suit :=
  suitList.filter (fun s => s ≠ card.suit)

/-- The suit-choice phase of `Belote.start`: in the same ring order, the
first player naming one of the three offered suits becomes the bidder with
that suit as trump; `none` when all four decline. -/
def suit_phase (dealer : Seat) (answers : Seat → String) (card : Card) :
    Option (Seat × Suit) :=
  (iter_from_next dealer).findSome?
    (fun p => ((suit_choices card).find?
                 (fun s => suit_value s = answers p)).map (fun s => (p, s)))

/-- Source `bidder.team.has_contract = True`: set the contracting flag of the
bidder's team. -/
def set_contract (flags : Fin 2 → Bool) (bidder : Seat) : Fin 2 → Bool :=
  fun t => if t = team_of bidder then true else flags t

/-- The whole bidding of `Belote.start`: take phase, then suit-choice phase
when every player declined the card; `none` when both phases fail (the
round is abandoned). -/
def run_bidding (dealer : Seat) (take_answers suit_answers : Seat → String)
    (card : Card) : Option (Seat × Suit) :=
  match take_phase dealer take_answers card with
  | some r => some r
  | none => suit_phase dealer suit_answers card

/-- The opening of `Belote.start` up to the second deal-out: `deal_5_cards`,
peek the top card, run the bidding on it, and on resolution
`deal_remaining`; returns the resulting state with the bidder and trump.
No deck operation happens between the peek and `deal_remaining`. -/
def start_deal (dealer : Seat) (take_answers suit_answers : Seat → String)
    (s : DealState) : Option (DealState × Seat × Suit) :=
  match deal_5_cards dealer s with
  | none => none
  | some s1 =>
    match peek s1.deck with
    | none => none
    | some card =>
      match run_bidding dealer take_answers suit_answers card with
      | none => none
      | some (bidder, trump) =>
        (deal_remaining dealer bidder s1).map (fun s2 => (s2, bidder, trump))

/-! ## Trick loop scoring -/

/-- Add `pts` to team `t`'s score. -/
def bump (teams : Fin 2 → Nat) (t : Fin 2) (pts : Nat) : Fin 2 → Nat :=
  fun u => if u = t then teams u + pts else teams u

/-- The trick loop of `Belote.start`, scoring only: for each trick pile the
winner's team gains the pile's total score; returns the final scores and
the last trick's winner.  `none` on an empty trick list or an empty pile
(`max` of an empty pile raises). -/
def play_tricks (trump : Suit) : List Pile → (Fin 2 → Nat) →
    Option ((Fin 2 → Nat) × Seat)
  | [], _ => none
  | pile :: rest, teams =>
    match winning_player_card trump pile with
    | none => none
    | some (w, _) =>
      let teams' := bump teams (team_of w) (total_score trump pile)
      match rest with
      | [] => some (teams', w)
      | _ :: _ => play_tricks trump rest teams'

/-- The scoring tail of `Belote.start`: play the tricks, then give the
winner of the last trick the 10-point bonus. -/
def score_deal (trump : Suit) (tricks : List Pile) (teams : Fin 2 → Nat) :
    Option (Fin 2 → Nat) :=
  match play_tricks trump tricks teams with
  | none => none
  | some (teams', lastWinner) => some (bump teams' (team_of lastWinner) 10)

/-! ## Concrete data for the witnesses -/

/-- The opening state of a deal: empty hands, a fresh 32-card deck. -/
def s0w : DealState := ⟨fun _ => [], allCards⟩

/-- Take-phase answers where seat 1 takes the shown card. -/
def tansw : Seat → String := fun p => if p = 1 then "yes" else "no"

/-- The state after `deal_5_cards` from `s0w` with dealer seat 0. -/
def s1w : DealState := (deal_5_cards 0 s0w).getD s0w

/-- Eight concrete tricks covering the 32 cards: the trick for each rank
holds its four suits, played by seats 0..3. -/
def tricksEx : List Pile :=
  rankList.map (fun r =>
    [((0 : Seat), (⟨r, Suit.diamond⟩ : Card)), (1, ⟨r, Suit.hearts⟩),
     (2, ⟨r, Suit.spades⟩), (3, ⟨r, Suit.clubs⟩)])

/-! ## Helper lemmas: the key ordering -/

lemma keyLt_irrefl (a : Nat × Nat) : keyLt a a = false := by
  simp [keyLt]

lemma keyLt_asymm_eq {a b : Nat × Nat} (h1 : keyLt a b = false)
    (h2 : keyLt b a = false) : a = b := by
  obtain ⟨x, y⟩ := a
  obtain ⟨u, v⟩ := b
  simp [keyLt] at h1 h2
  have : x = u := by omega
  subst this
  simp_all
  omega

lemma keyLt_false_trans {a b c : Nat × Nat} (h1 : keyLt a b = false)
    (h2 : keyLt b c = false) : keyLt a c = false := by
  obtain ⟨x, y⟩ := a
  obtain ⟨u, v⟩ := b
  obtain ⟨w, z⟩ := c
  simp [keyLt] at h1 h2 ⊢
  omega

lemma keyLt_true_false {a b c : Nat × Nat} (h1 : keyLt a b = true)
    (h2 : keyLt c b = false) : keyLt c a = false := by
  obtain ⟨x, y⟩ := a
  obtain ⟨u, v⟩ := b
  obtain ⟨w, z⟩ := c
  simp [keyLt] at h1 h2 ⊢
  omega

lemma keyLt_false_fst {a b : Nat × Nat} (h : keyLt a b = false) : b.1 ≤ a.1 := by
  obtain ⟨x, y⟩ := a
  obtain ⟨u, v⟩ := b
  simp [keyLt] at h
  omega

/-! ## Helper lemmas: the fold computing the trick maximum -/

lemma foldl_max_mem {α : Type} (key : α → Nat × Nat) (xs : List α) (x : α) :
    xs.foldl (fun best y => if keyLt (key best) (key y) then y else best) x
      ∈ x :: xs := by
  induction xs generalizing x with
  | nil => simp
  | cons y ys ih =>
    simp only [List.foldl_cons]
    by_cases hc : keyLt (key x) (key y) = true
    · rw [if_pos hc]
      rcases List.mem_cons.mp (ih y) with h1 | h1
      · rw [h1]; simp
      · simp [h1]
    · rw [if_neg hc]
      rcases List.mem_cons.mp (ih x) with h1 | h1
      · rw [h1]; simp
      · simp [h1]

lemma foldl_max_not_lt {α : Type} (key : α → Nat × Nat) (xs : List α) (x : α) :
    ∀ y ∈ x :: xs,
      keyLt (key (xs.foldl
          (fun best y => if keyLt (key best) (key y) then y else best) x))
        (key y) = false := by
  induction xs generalizing x with
  | nil =>
    intro y hy
    simp at hy
    subst hy
    simp [keyLt_irrefl]
  | cons z zs ih =>
    intro y hy
    simp only [List.foldl_cons]
    by_cases hc : keyLt (key x) (key z) = true
    · rw [if_pos hc]
      rcases List.mem_cons.mp hy with rfl | hy'
      · -- y is the start x: the fold result beats z and x < z
        exact keyLt_true_false hc (ih z z (by simp))
      · exact ih z y hy'
    · rw [if_neg hc]
      have hc' : keyLt (key x) (key z) = false := by
        simpa using hc
      rcases List.mem_cons.mp hy with h1 | hy'
      · subst h1
        exact ih y y (by simp)
      · rcases List.mem_cons.mp hy' with h2 | hy''
        · subst h2
          -- y is z: the fold result beats x and z is not above x
          exact keyLt_false_trans (ih x x (by simp)) hc'
        · exact ih x y (by simp [hy''])

/-! ## Helper lemmas: keys of distinct cards -/

lemma trump_order_inj : ∀ r1 r2 : Rank, TRUMP_ORDER r1 = TRUMP_ORDER r2 → r1 = r2 := by
  decide

lemma normal_order_inj : ∀ r1 r2 : Rank, NORMAL_ORDER r1 = NORMAL_ORDER r2 → r1 = r2 := by
  decide

/-- Two cards whose trick keys agree and sit in category 1 or 2 (trump or
led suit) are the same card. -/
lemma pile_key_of_trump {trump dom : Suit} {c : Card} (h : c.suit = trump) :
    pile_key trump dom c = (2, TRUMP_ORDER c.rank) := by
  rw [pile_key, if_pos h, Card.get_rank, if_pos h]

lemma pile_key_of_led {trump dom : Suit} {c : Card} (h1 : c.suit ≠ trump)
    (h2 : c.suit = dom) : pile_key trump dom c = (1, NORMAL_ORDER c.rank) := by
  rw [pile_key, if_neg h1, if_pos h2, Card.get_rank, if_neg h1]

lemma pile_key_of_off {trump dom : Suit} {c : Card} (h1 : c.suit ≠ trump)
    (h2 : c.suit ≠ dom) : pile_key trump dom c = (0, NORMAL_ORDER c.rank) := by
  rw [pile_key, if_neg h1, if_neg h2, Card.get_rank, if_neg h1]

lemma pile_key_eq_card {trump dom : Suit} {a b : Card}
    (hk : pile_key trump dom a = pile_key trump dom b)
    (hcat : 1 ≤ (pile_key trump dom a).1) : a = b := by
  obtain ⟨ar, as⟩ := a
  obtain ⟨br, bs⟩ := b
  by_cases ha : as = trump
  · by_cases hb : bs = trump
    · rw [pile_key_of_trump ha, pile_key_of_trump hb] at hk
      simp at hk
      rw [trump_order_inj _ _ hk, ha, hb]
    · by_cases hb2 : bs = dom
      · rw [pile_key_of_trump ha, pile_key_of_led hb hb2] at hk
        simp at hk
      · rw [pile_key_of_trump ha, pile_key_of_off hb hb2] at hk
        simp at hk
  · by_cases ha2 : as = dom
    · by_cases hb : bs = trump
      · rw [pile_key_of_led ha ha2, pile_key_of_trump hb] at hk
        simp at hk
      · by_cases hb2 : bs = dom
        · rw [pile_key_of_led ha ha2, pile_key_of_led hb hb2] at hk
          simp at hk
          rw [normal_order_inj _ _ hk, ha2, hb2]
        · rw [pile_key_of_led ha ha2, pile_key_of_off hb hb2] at hk
          simp at hk
    · rw [pile_key_of_off ha ha2] at hcat
      simp at hcat

/-- The key of the led card itself sits in category 1 or 2. -/
lemma pile_key_led_cat (trump dom : Suit) (c : Card) (h : c.suit = dom) :
    1 ≤ (pile_key trump dom c).1 := by
  by_cases hc : c.suit = trump
  · rw [pile_key_of_trump hc]
    simp
  · rw [pile_key_of_led hc h]

/-- In a list whose cards are distinct, the card determines the pair. -/
lemma snd_inj_of_nodup {l : Pile} (h : (l.map Prod.snd).Nodup)
    {a b : Seat × Card} (ha : a ∈ l) (hb : b ∈ l) (hab : a.2 = b.2) : a = b := by
  induction l with
  | nil => cases ha
  | cons x xs ih =>
    simp only [List.map_cons, List.nodup_cons] at h
    rcases List.mem_cons.mp ha with rfl | ha' <;>
      rcases List.mem_cons.mp hb with rfl | hb'
    · rfl
    · exact absurd (hab ▸ List.mem_map_of_mem Prod.snd hb') h.1
    · exact absurd (hab ▸ List.mem_map_of_mem Prod.snd ha') h.1
    · exact ih h.2 ha' hb'

/-! ## Claim C2 -/

/-- The trick maximum is a pile member whose key strictly dominates the key
of every pile card different from its own. -/
lemma winning_strict (trump : Suit) (x : Seat × Card) (xs : Pile)
    (w : Seat × Card) (hw : winning_player_card trump (x :: xs) = some w) :
    w ∈ x :: xs ∧
    ∀ pc ∈ x :: xs, pc.2 ≠ w.2 →
      keyLt (pile_key trump x.2.suit pc.2) (pile_key trump x.2.suit w.2) = true := by
  have hmem := foldl_max_mem (fun pc => pile_key trump x.2.suit pc.2) xs x
  have hmax := foldl_max_not_lt (fun pc => pile_key trump x.2.suit pc.2) xs x
  have hw' : w = xs.foldl
      (fun best y =>
        if keyLt (pile_key trump x.2.suit best.2) (pile_key trump x.2.suit y.2)
        then y else best) x := by
    unfold winning_player_card at hw
    simpa using hw.symm
  subst hw'
  refine ⟨hmem, ?_⟩
  intro pc hpc hne
  cases hca : keyLt (pile_key trump x.2.suit pc.2)
      (pile_key trump x.2.suit
        (xs.foldl
          (fun best y =>
            if keyLt (pile_key trump x.2.suit best.2) (pile_key trump x.2.suit y.2)
            then y else best) x).2) with
  | true => rfl
  | false =>
    exfalso
    have h1 : keyLt
        (pile_key trump x.2.suit
          (xs.foldl
            (fun best y =>
              if keyLt (pile_key trump x.2.suit best.2) (pile_key trump x.2.suit y.2)
              then y else best) x).2)
        (pile_key trump x.2.suit pc.2) = false := hmax pc hpc
    have hkeq := keyLt_asymm_eq hca h1
    have hc1 : keyLt
        (pile_key trump x.2.suit
          (xs.foldl
            (fun best y =>
              if keyLt (pile_key trump x.2.suit best.2) (pile_key trump x.2.suit y.2)
              then y else best) x).2)
        (pile_key trump x.2.suit x.2) = false := hmax x (by simp)
    have hcatw : (pile_key trump x.2.suit x.2).1 ≤
        (pile_key trump x.2.suit
          (xs.foldl
            (fun best y =>
              if keyLt (pile_key trump x.2.suit best.2) (pile_key trump x.2.suit y.2)
              then y else best) x).2).1 := keyLt_false_fst hc1
    have hcat1 : 1 ≤ (pile_key trump x.2.suit x.2).1 :=
      pile_key_led_cat trump x.2.suit x.2 rfl
    have hcatpc : 1 ≤ (pile_key trump x.2.suit pc.2).1 := by
      rw [hkeq]
      omega
    exact hne (pile_key_eq_card hkeq hcatpc)

/-- C2: on a completed trick of 4 (player, card) pairs with distinct cards,
`winning_player_card` returns a pair of the pile whose card's
`(isTrump, isLedSuit, rank)` key — the led suit being the first card's suit —
strictly dominates the key of each of the other three pairs; moreover under
that key ordering a trump card always beats any non-trump card, and a
led-suit non-trump card always beats any off-suit non-trump card. -/
theorem trick_winner_dominates (trump : Suit) (p1 p2 p3 p4 : Seat)
    (c1 c2 c3 c4 : Card) (hnd : ([c1, c2, c3, c4] : List Card).Nodup) :
    ∃ w, winning_player_card trump [(p1, c1), (p2, c2), (p3, c3), (p4, c4)] = some w ∧
      w ∈ [(p1, c1), (p2, c2), (p3, c3), (p4, c4)] ∧
      (∀ pc ∈ [(p1, c1), (p2, c2), (p3, c3), (p4, c4)], pc ≠ w →
        keyLt (pile_key trump c1.suit pc.2) (pile_key trump c1.suit w.2) = true) ∧
      (∀ a b : Card, a.suit = trump → b.suit ≠ trump →
        keyLt (pile_key trump c1.suit b) (pile_key trump c1.suit a) = true) ∧
      (∀ a b : Card, a.suit ≠ trump → a.suit = c1.suit →
        b.suit ≠ trump → b.suit ≠ c1.suit →
        keyLt (pile_key trump c1.suit b) (pile_key trump c1.suit a) = true) := by
  obtain ⟨w, hw⟩ : ∃ w,
      winning_player_card trump [(p1, c1), (p2, c2), (p3, c3), (p4, c4)] = some w :=
    ⟨_, rfl⟩
  obtain ⟨hmem, hstrict⟩ :=
    winning_strict trump (p1, c1) [(p2, c2), (p3, c3), (p4, c4)] w hw
  have hnd' : (([(p1, c1), (p2, c2), (p3, c3), (p4, c4)] : Pile).map Prod.snd).Nodup := by
    simpa using hnd
  refine ⟨w, hw, hmem, ?_, ?_, ?_⟩
  · intro pc hpc hne
    refine hstrict pc hpc ?_
    intro h2
    exact hne (snd_inj_of_nodup hnd' hpc hmem h2)
  · intro a b ha hb
    by_cases hb2 : b.suit = c1.suit
    · rw [pile_key_of_trump ha, pile_key_of_led hb hb2]
      simp [keyLt]
    · rw [pile_key_of_trump ha, pile_key_of_off hb hb2]
      simp [keyLt]
  · intro a b ha ha2 hb hb2
    rw [pile_key_of_led ha ha2, pile_key_of_off hb hb2]
    simp [keyLt]

/-- Witness for C2: trump ♥, trick `7♥ Q♥ 9♣ K♥` from seats 0..3. -/
theorem trick_winner_dominates_witness :
    ∃ w, winning_player_card Suit.hearts
        [(0, ⟨Rank.seven, Suit.hearts⟩), (1, ⟨Rank.queen, Suit.hearts⟩),
         (2, ⟨Rank.nine, Suit.clubs⟩), (3, ⟨Rank.king, Suit.hearts⟩)] = some w ∧
      w ∈ [((0 : Seat), (⟨Rank.seven, Suit.hearts⟩ : Card)),
           (1, ⟨Rank.queen, Suit.hearts⟩),
           (2, ⟨Rank.nine, Suit.clubs⟩), (3, ⟨Rank.king, Suit.hearts⟩)] ∧
      (∀ pc ∈ [((0 : Seat), (⟨Rank.seven, Suit.hearts⟩ : Card)),
               (1, ⟨Rank.queen, Suit.hearts⟩),
               (2, ⟨Rank.nine, Suit.clubs⟩), (3, ⟨Rank.king, Suit.hearts⟩)],
        pc ≠ w →
        keyLt (pile_key Suit.hearts Suit.hearts pc.2)
          (pile_key Suit.hearts Suit.hearts w.2) = true) ∧
      (∀ a b : Card, a.suit = Suit.hearts → b.suit ≠ Suit.hearts →
        keyLt (pile_key Suit.hearts Suit.hearts b)
          (pile_key Suit.hearts Suit.hearts a) = true) ∧
      (∀ a b : Card, a.suit ≠ Suit.hearts → a.suit = Suit.hearts →
        b.suit ≠ Suit.hearts → b.suit ≠ Suit.hearts →
        keyLt (pile_key Suit.hearts Suit.hearts b)
          (pile_key Suit.hearts Suit.hearts a) = true) :=
  trick_winner_dominates Suit.hearts 0 1 2 3
    ⟨Rank.seven, Suit.hearts⟩ ⟨Rank.queen, Suit.hearts⟩
    ⟨Rank.nine, Suit.clubs⟩ ⟨Rank.king, Suit.hearts⟩ (by decide)

/-! ## Helper lemmas: `legal_moves` -/

/-- When a plain (non-trump) suit is led, `legal_moves` collapses to:
led-suit cards if any, else trumps if any, else the whole hand.  The
winning-card data drops out: the teammate test compares a player with a
team (always false) and the overtrump filter runs over the empty
`same_suit`. -/
lemma legal_moves_plain (self : Player) (selfTeam : Team) (trump : Suit)
    (p0 : Seat) (c0 : Card) (rest : Pile) (hled : c0.suit ≠ trump) :
    legal_moves self selfTeam trump ((p0, c0) :: rest) =
      if self.hand.filter (fun c => c.suit = c0.suit) ≠ [] then
        self.hand.filter (fun c => c.suit = c0.suit)
      else if self.hand.filter (fun c => c.suit = trump) ≠ [] then
        self.hand.filter (fun c => c.suit = trump)
      else self.hand := by
  obtain ⟨⟨wp, wc⟩, hw⟩ : ∃ w, winning_player_card trump ((p0, c0) :: rest) = some w :=
    ⟨_, rfl⟩
  simp only [legal_moves, winnerEqualsTeam, Bool.false_eq_true, if_false]
  rw [hw]
  dsimp only
  rw [if_neg hled]
  by_cases hss : self.hand.filter (fun c => c.suit = c0.suit) = []
  · by_cases htr : self.hand.filter (fun c => c.suit = trump) = []
    · simp [hss, htr]
    · simp [hss, htr]
  · simp [hss]

/-- When trump is led, `legal_moves` collapses to: the whole hand if the
player holds no trump, else the trumps above the current winning card,
falling back to all trumps; the teammate test is always false. -/
lemma legal_moves_trump_led (self : Player) (selfTeam : Team) (trump : Suit)
    (p0 : Seat) (c0 : Card) (rest : Pile) (hled : c0.suit = trump)
    (w : Seat × Card)
    (hw : winning_player_card trump ((p0, c0) :: rest) = some w) :
    legal_moves self selfTeam trump ((p0, c0) :: rest) =
      if self.hand.filter (fun c => c.suit = c0.suit) = [] then self.hand
      else if (self.hand.filter (fun c => c.suit = c0.suit)).filter
            (fun c => w.2.get_rank trump < c.get_rank trump) = [] then
        self.hand.filter (fun c => c.suit = c0.suit)
      else (self.hand.filter (fun c => c.suit = c0.suit)).filter
            (fun c => w.2.get_rank trump < c.get_rank trump) := by
  obtain ⟨wp, wc⟩ := w
  simp only [legal_moves, winnerEqualsTeam, Bool.false_eq_true, if_false]
  rw [hw]
  dsimp only
  rw [if_pos hled]

/-! ## Claims C1, C3, C9 -/

/-- C1: the claim's teammate exemption does not hold on the code.  Trump is
♥, the trick so far is Q♥ played by seat 2, the player to move is seat 0 —
seat 2's teammate — holding `{7♥, K♥}`.  The claim says all trumps
`[7♥, K♥]` are legal; `legal_moves` returns only the higher trump `[K♥]`,
because `winning_player == self.team` compares a `Player` with a `Team` and
is therefore always false, leaving the overtrump obligation in force. -/
theorem c1_teammate_exemption_dead :
    team_of 2 = team_of 0 ∧
    legal_moves (⟨0, [⟨Rank.seven, Suit.hearts⟩, ⟨Rank.king, Suit.hearts⟩]⟩ : Player)
        ⟨0, false⟩ Suit.hearts [(2, ⟨Rank.queen, Suit.hearts⟩)] =
      [⟨Rank.king, Suit.hearts⟩] ∧
    ([⟨Rank.king, Suit.hearts⟩] : List Card) ≠
      [⟨Rank.seven, Suit.hearts⟩, ⟨Rank.king, Suit.hearts⟩] := by
  refine ⟨rfl, by decide, by decide⟩

/-- C3: when a plain (non-trump) suit is led, `legal_moves` returns exactly
the led-suit cards of the hand if there are any; otherwise exactly the
trumps of the hand if there are any; otherwise the whole hand. -/
theorem c3_plain_suit_led (self : Player) (selfTeam : Team) (trump : Suit)
    (p0 : Seat) (c0 : Card) (rest : Pile) (hled : c0.suit ≠ trump) :
    ((∃ c ∈ self.hand, c.suit = c0.suit) →
      legal_moves self selfTeam trump ((p0, c0) :: rest) =
        self.hand.filter (fun c => c.suit = c0.suit)) ∧
    ((∀ c ∈ self.hand, c.suit ≠ c0.suit) → (∃ c ∈ self.hand, c.suit = trump) →
      legal_moves self selfTeam trump ((p0, c0) :: rest) =
        self.hand.filter (fun c => c.suit = trump)) ∧
    ((∀ c ∈ self.hand, c.suit ≠ c0.suit) → (∀ c ∈ self.hand, c.suit ≠ trump) →
      legal_moves self selfTeam trump ((p0, c0) :: rest) = self.hand) := by
  have h := legal_moves_plain self selfTeam trump p0 c0 rest hled
  refine ⟨?_, ?_, ?_⟩
  · intro hex
    obtain ⟨c, hc, hcs⟩ := hex
    rw [h, if_pos (List.ne_nil_of_mem (List.mem_filter.mpr ⟨hc, by simp [hcs]⟩))]
  · intro hnone hex
    obtain ⟨c, hc, hcs⟩ := hex
    rw [h, if_neg (by simp [List.filter_eq_nil_iff]; exact hnone),
      if_pos (List.ne_nil_of_mem (List.mem_filter.mpr ⟨hc, by simp [hcs]⟩))]
  · intro hnone1 hnone2
    rw [h, if_neg (by simp [List.filter_eq_nil_iff]; exact hnone1),
      if_neg (by simp [List.filter_eq_nil_iff]; exact hnone2)]

/-- Witness for C3: the spec's scenario — ♦ led, ♣ trump, hand `{7♣}`. -/
theorem c3_plain_suit_led_witness :
    legal_moves ⟨0, [⟨Rank.seven, Suit.clubs⟩]⟩ ⟨0, false⟩ Suit.clubs
      ((1, ⟨Rank.king, Suit.diamond⟩) :: []) = [⟨Rank.seven, Suit.clubs⟩] := by
  have h := (c3_plain_suit_led ⟨0, [⟨Rank.seven, Suit.clubs⟩]⟩ ⟨0, false⟩
    Suit.clubs 1 ⟨Rank.king, Suit.diamond⟩ [] (by decide)).2.1
    (by decide) (by decide)
  exact h.trans (by decide)

/-- C9: on a non-empty hand `legal_moves` always returns a non-empty subset
of the hand, and when a plain suit was led and the hand holds cards of the
led suit, every returned card follows suit. -/
theorem c9_legal_moves_sound (self : Player) (selfTeam : Team) (trump : Suit)
    (pile : Pile) (hne : self.hand ≠ []) :
    legal_moves self selfTeam trump pile ≠ [] ∧
    (∀ c ∈ legal_moves self selfTeam trump pile, c ∈ self.hand) ∧
    (∀ p0 c0 rest, pile = (p0, c0) :: rest → c0.suit ≠ trump →
      (∃ c ∈ self.hand, c.suit = c0.suit) →
      ∀ c ∈ legal_moves self selfTeam trump pile, c.suit = c0.suit) := by
  match pile with
  | [] =>
    refine ⟨by simpa [legal_moves] using hne, by simp [legal_moves], ?_⟩
    intro p0 c0 rest hcontra
    cases hcontra
  | (q0, d0) :: rest =>
    by_cases hd : d0.suit = trump
    · obtain ⟨⟨wp, wc⟩, hw⟩ :
          ∃ w, winning_player_card trump ((q0, d0) :: rest) = some w := ⟨_, rfl⟩
      have h := legal_moves_trump_led self selfTeam trump q0 d0 rest hd (wp, wc) hw
      rw [h]
      split_ifs with h1 h2
      · refine ⟨hne, fun c hc => hc, ?_⟩
        intro p0 c0 rest2 heq hledne _
        cases heq
        exact absurd hd hledne
      · refine ⟨h1, fun c hc => (List.mem_filter.mp hc).1, ?_⟩
        intro p0 c0 rest2 heq hledne _
        cases heq
        exact absurd hd hledne
      · refine ⟨h2, ?_, ?_⟩
        · intro c hc
          exact (List.mem_filter.mp (List.mem_filter.mp hc).1).1
        · intro p0 c0 rest2 heq hledne _
          cases heq
          exact absurd hd hledne
    · have h := legal_moves_plain self selfTeam trump q0 d0 rest hd
      rw [h]
      split_ifs with h1 h2
      · refine ⟨h1, fun c hc => (List.mem_filter.mp hc).1, ?_⟩
        intro p0 c0 rest2 heq hledne hex c hc
        cases heq
        have := (List.mem_filter.mp hc).2
        simpa using this
      · refine ⟨h2, fun c hc => (List.mem_filter.mp hc).1, ?_⟩
        intro p0 c0 rest2 heq hledne hex c hc
        cases heq
        exfalso
        obtain ⟨e, he, hes⟩ := hex
        exact h1 (List.ne_nil_of_mem (List.mem_filter.mpr ⟨he, by simp [hes]⟩))
      · refine ⟨hne, fun c hc => hc, ?_⟩
        intro p0 c0 rest2 heq hledne hex c hc
        cases heq
        exfalso
        obtain ⟨e, he, hes⟩ := hex
        exact h1 (List.ne_nil_of_mem (List.mem_filter.mpr ⟨he, by simp [hes]⟩))

/-- C4: with trump ♥, Q♥ led by seat 1, and the hand `{7♥, K♥, 9♣}` — legal
set `{K♥}` — the malformed token `"X9"` makes `ask_to_play` raise
`ValueError` (ProtocolError) and the legal-but-not-playable `"9♣"` makes the
`assert card in legal_moves` fail (IllegalMove); both abort with the hand
and the trick pile untouched.  The source has no handler
(`# TODO: Handle errors`), so the exception propagates and the player is
never re-prompted. -/
theorem c4_rejection_aborts_without_mutation :
    ask_to_play
        (⟨0, [⟨Rank.seven, Suit.hearts⟩, ⟨Rank.king, Suit.hearts⟩,
              ⟨Rank.nine, Suit.clubs⟩]⟩ : Player)
        ⟨0, false⟩ Suit.hearts [(1, ⟨Rank.queen, Suit.hearts⟩)] "X9" =
      PlayOutcome.protocolError
        [⟨Rank.seven, Suit.hearts⟩, ⟨Rank.king, Suit.hearts⟩,
         ⟨Rank.nine, Suit.clubs⟩]
        [(1, ⟨Rank.queen, Suit.hearts⟩)] ∧
    ask_to_play
        (⟨0, [⟨Rank.seven, Suit.hearts⟩, ⟨Rank.king, Suit.hearts⟩,
              ⟨Rank.nine, Suit.clubs⟩]⟩ : Player)
        ⟨0, false⟩ Suit.hearts [(1, ⟨Rank.queen, Suit.hearts⟩)] "9♣" =
      PlayOutcome.illegalMove
        [⟨Rank.seven, Suit.hearts⟩, ⟨Rank.king, Suit.hearts⟩,
         ⟨Rank.nine, Suit.clubs⟩]
        [(1, ⟨Rank.queen, Suit.hearts⟩)] := by
  constructor
  · rfl
  · rfl

/-- Witness for C9: a one-card hand facing an empty trick. -/
theorem c9_legal_moves_sound_witness :
    legal_moves ⟨0, [⟨Rank.nine, Suit.clubs⟩]⟩ ⟨0, false⟩ Suit.hearts [] ≠ [] ∧
    (∀ c ∈ legal_moves ⟨0, [⟨Rank.nine, Suit.clubs⟩]⟩ ⟨0, false⟩ Suit.hearts [],
      c ∈ Player.hand ⟨0, [⟨Rank.nine, Suit.clubs⟩]⟩) ∧
    (∀ p0 c0 rest, ([] : Pile) = (p0, c0) :: rest → c0.suit ≠ Suit.hearts →
      (∃ c ∈ Player.hand ⟨0, [⟨Rank.nine, Suit.clubs⟩]⟩, c.suit = c0.suit) →
      ∀ c ∈ legal_moves ⟨0, [⟨Rank.nine, Suit.clubs⟩]⟩ ⟨0, false⟩ Suit.hearts [],
        c.suit = c0.suit) :=
  c9_legal_moves_sound ⟨0, [⟨Rank.nine, Suit.clubs⟩]⟩ ⟨0, false⟩ Suit.hearts []
    (by decide)

/-! ## Helper lemmas: `findSome?` -/

lemma findSome?_all_none {α β : Type} (f : α → Option β) (l : List α)
    (h : ∀ x ∈ l, f x = none) : l.findSome? f = none := by
  induction l with
  | nil => rfl
  | cons a as ih =>
    rw [List.findSome?_cons, h a (by simp)]
    exact ih (fun x hx => h x (by simp [hx]))

lemma findSome?_append_skip {α β : Type} (f : α → Option β) (l1 l2 : List α)
    (h : ∀ x ∈ l1, f x = none) :
    (l1 ++ l2).findSome? f = l2.findSome? f := by
  induction l1 with
  | nil => rfl
  | cons a as ih =>
    rw [List.cons_append, List.findSome?_cons, h a (by simp)]
    exact ih (fun x hx => h x (by simp [hx]))

lemma findSome?_some_mem {α β : Type} {f : α → Option β} {l : List α} {b : β}
    (h : l.findSome? f = some b) : ∃ a ∈ l, f a = some b := by
  induction l with
  | nil => simp [List.findSome?] at h
  | cons a as ih =>
    rw [List.findSome?_cons] at h
    cases hfa : f a with
    | some c =>
      rw [hfa] at h
      exact ⟨a, by simp, by rw [hfa]; exact h⟩
    | none =>
      rw [hfa] at h
      obtain ⟨x, hx, hfx⟩ := ih h
      exact ⟨x, by simp [hx], hfx⟩

/-! ## Claim C5 -/

/-- C5: in the take phase the players are polled in ring order
`[dealer+1, dealer+2, dealer+3, dealer]`; the first player answering the
literal `"yes"` becomes the bidder with trump the shown card's suit and the
contracting flag of their team set; any other token declines, and when all
four decline the phase yields nothing and the bidding falls through to the
suit-choice phase, whose choice set is exactly the three suits other than
the shown card's suit. -/
theorem take_phase_spec (dealer : Seat) (answers : Seat → String) (card : Card) :
    (iter_from_next dealer = [dealer + 1, dealer + 2, dealer + 3, dealer]) ∧
    (∀ l1 b l2, iter_from_next dealer = l1 ++ b :: l2 →
      (∀ p ∈ l1, answers p ≠ "yes") → answers b = "yes" →
      take_phase dealer answers card = some (b, card.suit) ∧
      ∀ flags, set_contract flags b (team_of b) = true) ∧
    (∀ b t, take_phase dealer answers card = some (b, t) →
      answers b = "yes" ∧ t = card.suit) ∧
    ((∀ p : Seat, answers p ≠ "yes") →
      take_phase dealer answers card = none ∧
      (∀ suit_answers : Seat → String,
        run_bidding dealer answers suit_answers card =
          suit_phase dealer suit_answers card)) ∧
    ((suit_choices card).length = 3 ∧ card.suit ∉ suit_choices card ∧
      ∀ s : Suit, s ≠ card.suit → s ∈ suit_choices card) := by
  refine ⟨rfl, ?_, ?_, ?_, ?_⟩
  · intro l1 b l2 hsplit hno hyes
    constructor
    · rw [take_phase, hsplit, findSome?_append_skip _ _ _
        (fun p hp => by simp [hno p hp]), List.findSome?_cons, if_pos hyes]
    · intro flags
      simp [set_contract]
  · intro b t h
    obtain ⟨a, ha, hfa⟩ := findSome?_some_mem h
    by_cases hya : answers a = "yes"
    · rw [if_pos hya] at hfa
      obtain ⟨rfl, rfl⟩ : a = b ∧ card.suit = t := by
        simpa using hfa
      exact ⟨hya, rfl⟩
    · rw [if_neg hya] at hfa
      cases hfa
  · intro hall
    have hnone : take_phase dealer answers card = none :=
      findSome?_all_none _ _ (fun p _ => by simp [hall p])
    refine ⟨hnone, ?_⟩
    intro suit_answers
    rw [run_bidding, hnone]
  · obtain ⟨r, s⟩ := card
    cases r <;> cases s <;> exact ⟨by decide, by decide, by decide⟩

/-- Witness for C5: dealer seat 0, top card Q♠, seat 1 answers `"yes"`. -/
theorem take_phase_spec_witness :
    take_phase 0 (fun p => if p = 1 then "yes" else "no")
        ⟨Rank.queen, Suit.spades⟩ = some (1, Suit.spades) ∧
    ∀ flags, set_contract flags 1 (team_of 1) = true :=
  (take_phase_spec 0 (fun p => if p = 1 then "yes" else "no")
      ⟨Rank.queen, Suit.spades⟩).2.1 [] 1 [2, 3, 0] (by decide)
    (by intro p hp; cases hp) (by decide)

/-! ## Helper lemmas: dealing -/

lemma pop_many_le {cards : List Card} {n : Nat} (h : n ≤ cards.length) :
    pop_many cards n =
      some ((cards.drop (cards.length - n)).reverse,
            cards.take (cards.length - n)) := by
  rw [pop_many, if_pos h]

lemma pop_many_spec {cards : List Card} {n : Nat} {cs rest : List Card}
    (h : pop_many cards n = some (cs, rest)) :
    cs.length = n ∧ rest.length = cards.length - n ∧ n ≤ cards.length := by
  rw [pop_many] at h
  by_cases hn : n ≤ cards.length
  · rw [if_pos hn] at h
    simp only [Option.some.injEq, Prod.mk.injEq] at h
    obtain ⟨rfl, rfl⟩ := h
    refine ⟨?_, ?_, hn⟩
    · rw [List.length_reverse, List.length_drop]
      omega
    · rw [List.length_take]
      omega
  · rw [if_neg hn] at h
    cases h

lemma deal_out_total (n : Seat → Nat) : ∀ (order : List Seat) (s : DealState),
    (order.map n).sum ≤ s.deck.length →
    ∃ s', deal_out order n s = some s' ∧
      s'.deck.length = s.deck.length - (order.map n).sum := by
  intro order
  induction order with
  | nil =>
    intro s hle
    exact ⟨s, rfl, by simp⟩
  | cons q rest ih =>
    intro s hle
    have hq : n q ≤ s.deck.length := by
      simp only [List.map_cons, List.sum_cons] at hle
      omega
    obtain ⟨cs, deck', hpop⟩ :
        ∃ cs deck', pop_many s.deck (n q) = some (cs, deck') := by
      rw [pop_many_le hq]
      exact ⟨_, _, rfl⟩
    obtain ⟨hcs, hdeck', -⟩ := pop_many_spec hpop
    have hle' : (rest.map n).sum ≤ deck'.length := by
      rw [hdeck']
      simp only [List.map_cons, List.sum_cons] at hle
      omega
    obtain ⟨s', hs', hdl⟩ := ih ⟨add_to_hand s.hands q cs, deck'⟩ hle'
    refine ⟨s', ?_, ?_⟩
    · rw [deal_out, hpop]
      exact hs'
    · rw [hdl]
      simp only [List.map_cons, List.sum_cons]
      rw [hdeck']
      omega

lemma deal_out_hands (n : Seat → Nat) : ∀ (order : List Seat) (s s' : DealState),
    deal_out order n s = some s' →
    ∀ p, ∃ extra, s'.hands p = s.hands p ++ extra ∧
      extra.length = ((order.filter (fun q => q = p)).map n).sum := by
  intro order
  induction order with
  | nil =>
    intro s s' h p
    obtain rfl : s = s' := by simpa [deal_out] using h
    exact ⟨[], by simp, by simp⟩
  | cons q rest ih =>
    intro s s' h p
    rw [deal_out] at h
    cases hpop : pop_many s.deck (n q) with
    | none =>
      rw [hpop] at h
      cases h
    | some pr =>
      obtain ⟨cs, deck'⟩ := pr
      rw [hpop] at h
      obtain ⟨hcs, -, -⟩ := pop_many_spec hpop
      obtain ⟨extra, hex, hlen⟩ := ih ⟨add_to_hand s.hands q cs, deck'⟩ s' h p
      by_cases hpq : q = p
      · subst hpq
        refine ⟨cs ++ extra, ?_, ?_⟩
        · rw [hex]
          simp [add_to_hand]
        · rw [List.length_append, hcs, hlen, List.filter_cons]
          simp
      · have hqp : ¬ p = q := fun h2 => hpq h2.symm
        refine ⟨extra, ?_, ?_⟩
        · rw [hex]
          show (if p = q then s.hands p ++ cs else s.hands p) ++ extra = _
          rw [if_neg hqp]
        · rw [hlen, List.filter_cons]
          simp [hpq]

lemma ring_filter : ∀ d p : Seat,
    (iter_from_next d).filter (fun q => q = p) = [p] := by
  decide

lemma ring_const_sum (d : Seat) (k : Nat) :
    ((iter_from_next d).map (fun _ => k)).sum = 4 * k := by
  simp [iter_from_next]
  omega

lemma ring_bidder_sum : ∀ d b : Seat,
    ((iter_from_next d).map (fun p => if p = b then 2 else 3)).sum = 11 := by
  decide

/-! ## Claim C6 -/

/-- C6: from a 32-card deck with empty hands, `deal_5_cards` succeeds and
leaves 12 cards in the deck and 5 in every hand, then `deal_remaining`
succeeds and leaves an empty deck and 8 cards in every hand; and every
successful `pop_many` removes exactly the requested number of cards from
the deck, never going negative. -/
theorem deal_exhausts_deck (deck : List Card) (dealer bidder : Seat)
    (h32 : deck.length = 32) :
    (∀ (cards : List Card) (k : Nat) (cs rest : List Card),
      pop_many cards k = some (cs, rest) →
      cs.length = k ∧ rest.length + k = cards.length) ∧
    ∃ s1, deal_5_cards dealer ⟨fun _ => [], deck⟩ = some s1 ∧
      s1.deck.length = 12 ∧ (∀ p, (s1.hands p).length = 5) ∧
      ∃ s2, deal_remaining dealer bidder s1 = some s2 ∧
        s2.deck.length = 0 ∧ (∀ p, (s2.hands p).length = 8) := by
  constructor
  · intro cards k cs rest h
    obtain ⟨h1, h2, h3⟩ := pop_many_spec h
    omega
  · obtain ⟨sA, hA, hAdeck⟩ :=
      deal_out_total (fun _ => 2) (iter_from_next dealer) ⟨fun _ => [], deck⟩
        (by rw [ring_const_sum]; show 8 ≤ deck.length; omega)
    have hAhands := deal_out_hands (fun _ => 2) (iter_from_next dealer) _ _ hA
    obtain ⟨sB, hB, hBdeck⟩ :=
      deal_out_total (fun _ => 3) (iter_from_next dealer) sA
        (by rw [ring_const_sum, hAdeck, ring_const_sum]; show 12 ≤ deck.length - 8; omega)
    have hBhands := deal_out_hands (fun _ => 3) (iter_from_next dealer) _ _ hB
    have h5 : deal_5_cards dealer ⟨fun _ => [], deck⟩ = some sB := by
      rw [deal_5_cards, hA]
      exact hB
    have hBdeck' : sB.deck.length = 12 := by
      rw [hBdeck, hAdeck, ring_const_sum, ring_const_sum]
      show deck.length - 8 - 12 = 12
      omega
    have hBh : ∀ p, (sB.hands p).length = 5 := by
      intro p
      obtain ⟨e1, he1, hl1⟩ := hAhands p
      obtain ⟨e2, he2, hl2⟩ := hBhands p
      rw [ring_filter] at hl1 hl2
      simp only [List.map_cons, List.map_nil, List.sum_cons, List.sum_nil] at hl1 hl2
      rw [he2, he1]
      show (([] : List Card) ++ e1 ++ e2).length = 5
      simp [List.length_append, hl1, hl2]
    refine ⟨sB, h5, hBdeck', hBh, ?_⟩
    obtain ⟨cs, deck', hpop⟩ :
        ∃ cs deck', pop_many sB.deck 1 = some (cs, deck') := by
      rw [pop_many_le (by omega)]
      exact ⟨_, _, rfl⟩
    obtain ⟨hcs, hdeck', -⟩ := pop_many_spec hpop
    obtain ⟨sD, hD, hDdeck⟩ :=
      deal_out_total (fun p => if p = bidder then 2 else 3) (iter_from_next dealer)
        ⟨add_to_hand sB.hands bidder cs, deck'⟩
        (by rw [ring_bidder_sum]; show 11 ≤ deck'.length; omega)
    have hDhands := deal_out_hands (fun p => if p = bidder then 2 else 3)
      (iter_from_next dealer) _ _ hD
    have hrem : deal_remaining dealer bidder sB = some sD := by
      rw [deal_remaining, hpop]
      exact hD
    refine ⟨sD, hrem, ?_, ?_⟩
    · rw [hDdeck, ring_bidder_sum]
      show deck'.length - 11 = 0
      omega
    · intro p
      obtain ⟨e3, he3, hl3⟩ := hDhands p
      rw [ring_filter] at hl3
      simp only [List.map_cons, List.map_nil, List.sum_cons, List.sum_nil] at hl3
      rw [he3]
      show ((if p = bidder then sB.hands p ++ cs else sB.hands p) ++ e3).length = 8
      by_cases hpb : p = bidder
      · rw [if_pos hpb] at hl3
        rw [if_pos hpb]
        simp only [List.length_append, hBh p, hcs]
        omega
      · rw [if_neg hpb] at hl3
        rw [if_neg hpb]
        simp only [List.length_append, hBh p]
        omega

/-- Witness for C6: the freshly built 32-card deck, dealer seat 0, bidder
seat 1. -/
theorem deal_exhausts_deck_witness :
    (∀ (cards : List Card) (k : Nat) (cs rest : List Card),
      pop_many cards k = some (cs, rest) →
      cs.length = k ∧ rest.length + k = cards.length) ∧
    ∃ s1, deal_5_cards 0 ⟨fun _ => [], allCards⟩ = some s1 ∧
      s1.deck.length = 12 ∧ (∀ p, (s1.hands p).length = 5) ∧
      ∃ s2, deal_remaining 0 1 s1 = some s2 ∧
        s2.deck.length = 0 ∧ (∀ p, (s2.hands p).length = 8) :=
  deal_exhausts_deck allCards 0 1 (by decide)

/-! ## Claim C7 -/

/-- C7: `cut` succeeds exactly when `3 ≤ index ≤ len − 3`, and then returns
the rotation `cards[index:] ++ cards[:index]` — the back chunk moved to the
front, each chunk in its original order — which is a permutation of the
original deck. -/
theorem cut_rotates (cards : List Card) (index : Nat) :
    ((cut cards index).isSome ↔ 3 ≤ index ∧ index + 3 ≤ cards.length) ∧
    ∀ res, cut cards index = some res →
      res = cards.drop index ++ cards.take index ∧ res.Perm cards := by
  constructor
  · rw [cut]
    dsimp only
    by_cases h1 : index < cards.length
    · rw [if_pos h1]
      by_cases h2 : 3 ≤ (cards.take index).length ∧ 3 ≤ (cards.drop index).length
      · rw [if_pos h2]
        obtain ⟨h2a, h2b⟩ := h2
        rw [List.length_take] at h2a
        rw [List.length_drop] at h2b
        simp only [Option.isSome_some, true_iff]
        constructor <;> omega
      · rw [if_neg h2]
        simp only [Option.isSome_none, Bool.false_eq_true, false_iff]
        rintro ⟨h3, h4⟩
        exact h2 ⟨by rw [List.length_take]; omega, by rw [List.length_drop]; omega⟩
    · rw [if_neg h1]
      simp only [Option.isSome_none, Bool.false_eq_true, false_iff]
      rintro ⟨h3, h4⟩
      omega
  · intro res hres
    rw [cut] at hres
    dsimp only at hres
    by_cases h1 : index < cards.length
    · rw [if_pos h1] at hres
      by_cases h2 : 3 ≤ (cards.take index).length ∧ 3 ≤ (cards.drop index).length
      · rw [if_pos h2] at hres
        simp only [Option.some.injEq] at hres
        subst hres
        refine ⟨rfl, List.Perm.trans List.perm_append_comm ?_⟩
        rw [List.take_append_drop]
      · rw [if_neg h2] at hres
        cases hres
    · rw [if_neg h1] at hres
      cases hres

/-- Witness for C7: cutting the fresh deck at index 3. -/
theorem cut_rotates_witness : (cut allCards 3).isSome :=
  (cut_rotates allCards 3).1.mpr (by decide)

/-! ## Claim C10 -/

lemma drop_length_sub_one : ∀ (cards : List Card) (c : Card),
    cards.getLast? = some c → cards.drop (cards.length - 1) = [c] := by
  intro cards
  induction cards with
  | nil =>
    intro c h
    cases h
  | cons x l ih =>
    intro c h
    cases l with
    | nil =>
      simpa using h
    | cons y rest =>
      have h' : (y :: rest).getLast? = some c := by
        rwa [List.getLast?_cons_cons] at h
      have h2 := ih c h'
      show (x :: y :: rest).drop ((x :: y :: rest).length - 1) = [c]
      simp only [List.length_cons]
      rw [Nat.add_sub_cancel, List.drop_succ_cons]
      simpa using h2

/-- Source `peek` reads the card that the very next `pop` removes: popping one card
returns exactly the peeked card and leaves the rest of the deck. -/
lemma pop_many_one {cards : List Card} {c : Card} (h : peek cards = some c) :
    pop_many cards 1 = some ([c], cards.dropLast) := by
  have hne : cards ≠ [] := by
    intro h2
    rw [h2] at h
    cases h
  have hlen : 1 ≤ cards.length := List.length_pos.mpr hne
  rw [pop_many_le hlen, drop_length_sub_one cards c h]
  simp [List.dropLast_eq_take]

/-- C10: `peek` returns the deck's top card without modifying the deck —
popping one card afterwards yields exactly that card — and when the take
phase resolves the bidding, `start_deal` (which performs no deck operation
between the peek and `deal_remaining`) gives the bidder the peeked card as
the single first-dealt card, followed by the 2-card chunk. -/
theorem peek_card_dealt_to_bidder (dealer bidder : Seat) (trump : Suit)
    (tans sans : Seat → String) (s s1 : DealState) (card : Card)
    (h5 : deal_5_cards dealer s = some s1)
    (hpk : peek s1.deck = some card)
    (htake : take_phase dealer tans card = some (bidder, trump)) :
    pop_many s1.deck 1 = some ([card], s1.deck.dropLast) ∧
    ∀ out, start_deal dealer tans sans s = some out →
      out.2.1 = bidder ∧ out.2.2 = trump ∧
      ∃ extra, extra.length = 2 ∧
        out.1.hands bidder = s1.hands bidder ++ [card] ++ extra := by
  refine ⟨pop_many_one hpk, ?_⟩
  intro out hout
  rw [start_deal, h5] at hout
  dsimp only at hout
  rw [hpk] at hout
  dsimp only at hout
  rw [run_bidding, htake] at hout
  dsimp only at hout
  cases hrem : deal_remaining dealer bidder s1 with
  | none =>
    rw [hrem] at hout
    cases hout
  | some s2 =>
    rw [hrem] at hout
    obtain rfl : (s2, bidder, trump) = out := by simpa using hout
    refine ⟨rfl, rfl, ?_⟩
    rw [deal_remaining, pop_many_one hpk] at hrem
    dsimp only at hrem
    obtain ⟨extra, hex, hlen⟩ := deal_out_hands _ _ _ _ hrem bidder
    rw [ring_filter] at hlen
    simp at hlen
    refine ⟨extra, by omega, ?_⟩
    rw [hex]
    show (if bidder = bidder then s1.hands bidder ++ [card] else s1.hands bidder)
        ++ extra = _
    rw [if_pos rfl]

/-- Witness for C10: a full concrete opening — fresh deck, dealer seat 0,
seat 1 takes the shown card Q♣. -/
theorem peek_card_dealt_to_bidder_witness :
    pop_many s1w.deck 1 =
      some ([⟨Rank.queen, Suit.clubs⟩], s1w.deck.dropLast) ∧
    ∀ out, start_deal 0 tansw tansw s0w = some out →
      out.2.1 = 1 ∧ out.2.2 = Suit.clubs ∧
      ∃ extra, extra.length = 2 ∧
        out.1.hands 1 = s1w.hands 1 ++ [⟨Rank.queen, Suit.clubs⟩] ++ extra :=
  peek_card_dealt_to_bidder 0 1 Suit.clubs tansw tansw s0w s1w
    ⟨Rank.queen, Suit.clubs⟩ rfl rfl (by decide)

/-! ## Claim C8 -/

lemma bump_sum (teams : Fin 2 → Nat) (t : Fin 2) (pts : Nat) :
    bump teams t pts 0 + bump teams t pts 1 = teams 0 + teams 1 + pts := by
  fin_cases t <;> simp [bump] <;> omega

lemma play_tricks_spec (trump : Suit) : ∀ (tricks : List Pile) (teams : Fin 2 → Nat),
    tricks ≠ [] → (∀ pile ∈ tricks, pile ≠ []) →
    ∃ teams' w, play_tricks trump tricks teams = some (teams', w) ∧
      teams' 0 + teams' 1 =
        teams 0 + teams 1 + (tricks.map (total_score trump)).sum := by
  intro tricks
  induction tricks with
  | nil =>
    intro teams h _
    exact absurd rfl h
  | cons pile rest ih =>
    intro teams _ hne
    obtain ⟨w0, hw0⟩ : ∃ w0, winning_player_card trump pile = some w0 := by
      cases pile with
      | nil => exact absurd rfl (hne [] (by simp))
      | cons x xs => exact ⟨_, rfl⟩
    obtain ⟨wp, wc⟩ := w0
    cases rest with
    | nil =>
      refine ⟨bump teams (team_of wp) (total_score trump pile), wp, ?_, ?_⟩
      · rw [play_tricks, hw0]
      · rw [bump_sum]
        simp
    | cons r rs =>
      obtain ⟨teams', w', hplay, hsum⟩ :=
        ih (bump teams (team_of wp) (total_score trump pile))
          (by simp) (fun q hq => hne q (by simp [hq]))
      refine ⟨teams', w', ?_, ?_⟩
      · rw [play_tricks, hw0]
        exact hplay
      · rw [hsum, bump_sum]
        simp only [List.map_cons, List.sum_cons]
        omega

lemma total_score_flatten (trump : Suit) : ∀ tricks : List Pile,
    (tricks.map (total_score trump)).sum =
      ((tricks.flatten.map Prod.snd).map (fun c => c.get_value trump)).sum := by
  intro tricks
  induction tricks with
  | nil => rfl
  | cons p rest ih =>
    simp only [List.map_cons, List.sum_cons, List.flatten_cons, List.map_append,
      List.sum_append, ih, total_score]
    congr 1
    rw [List.map_map]
    rfl

/-- C8: for every trump the 32 cards are worth 152 points — 62 on the trump
suit, 30 on each other suit — and a completed deal of 8 non-empty tricks
covering all 32 cards credits, after the 10-point last-trick bonus, exactly
162 points split between the two teams' score increases. -/
theorem deal_total_points (trump : Suit) (teams : Fin 2 → Nat)
    (tricks : List Pile) (h8 : tricks.length = 8)
    (hne : ∀ pile ∈ tricks, pile ≠ [])
    (hall : (tricks.flatten.map Prod.snd).Perm allCards) :
    ((allCards.map (fun c => c.get_value trump)).sum = 152) ∧
    (((allCards.filter (fun c => c.suit = trump)).map
        (fun c => c.get_value trump)).sum = 62) ∧
    (∀ s : Suit, s ≠ trump →
      ((allCards.filter (fun c => c.suit = s)).map
        (fun c => c.get_value trump)).sum = 30) ∧
    ∃ final, score_deal trump tricks teams = some final ∧
      final 0 + final 1 = teams 0 + teams 1 + 162 := by
  refine ⟨?_, ?_, ?_, ?_⟩
  · cases trump <;> decide
  · cases trump <;> decide
  · cases trump <;> decide
  · have hne' : tricks ≠ [] := by
      intro h
      rw [h] at h8
      cases h8
    obtain ⟨teams', w, hplay, hsum⟩ := play_tricks_spec trump tricks teams hne' hne
    refine ⟨bump teams' (team_of w) 10, ?_, ?_⟩
    · rw [score_deal, hplay]
    · have hb := bump_sum teams' (team_of w) 10
      have hts : (tricks.map (total_score trump)).sum = 152 := by
        rw [total_score_flatten]
        rw [(hall.map (fun c => c.get_value trump)).sum_eq]
        cases trump <;> decide
      omega

/-- Witness for C8: trump ♥, both scores 0, the 8 rank-tricks `tricksEx`. -/
theorem deal_total_points_witness :
    ((allCards.map (fun c => c.get_value Suit.hearts)).sum = 152) ∧
    (((allCards.filter (fun c => c.suit = Suit.hearts)).map
        (fun c => c.get_value Suit.hearts)).sum = 62) ∧
    (∀ s : Suit, s ≠ Suit.hearts →
      ((allCards.filter (fun c => c.suit = s)).map
        (fun c => c.get_value Suit.hearts)).sum = 30) ∧
    ∃ final, score_deal Suit.hearts tricksEx (fun _ => 0) = some final ∧
      final 0 + final 1 = 0 + 0 + 162 :=
  deal_total_points Suit.hearts (fun _ => 0) tricksEx (by decide) (by decide)
    (by decide)

end Belote
